import Mathlib

/-!
Verification of the data reshaping and ordering pipeline of the T-Bills India
dashboard (source file: src/T-bills_india.py).

The source is a pandas/streamlit script.  The definitions below are a shallow
embedding of the frames and frame operations the script performs:

* the wide spreadsheet table loaded at line 134 (first column = period label,
  remaining columns = tenors, cells = numeric yields, possibly missing);
* the timestamp derivation at lines 144-148 and 305;
* the melt to long form at lines 151-156;
* the chronological sort at line 215 and the unique period list at line 216;
* the period slice and tenor-categorical sort at lines 229-231;
* the heatmap reshaping at lines 304-309;
* the load / empty-table fallback at lines 122-134 and the empty gate at
  lines 140 and 342-343.

Missing numeric cells (NaN) are modelled as `none`; yield values are modelled
as rationals (the claims never compute with yields, they only move them
around).  Missing timestamps (NaT) are likewise `none`.

Modelling of `DataFrame.sort_values(by=col)`: pandas computes the new row
order with `nargsort`, which argsorts the non-missing keys and then appends
the positions of the missing keys in their original relative order
(`na_position="last"`, the default used by the source).  The missing-key
placement is therefore exact.  The argsort of the non-missing keys is modelled
here by a stable insertion sort; numpy runs exactly an insertion sort for the
segments handled by the small regime of its default introsort, while for
larger inputs the default kind="quicksort" does not guarantee the relative
order of rows with equal keys.  Every theorem below that is proved against
this model is insensitive to the order of equal-key rows, with the exception
noted in the claims about tie stability, which are left unsettled for this
reason.
-/

/-- Cell of a numeric column: a yield in percent, or missing (NaN). -/
abbrev YCell := Option Rat

/-- Row of the wide table loaded from the spreadsheet: the period label from
the first column and one yield cell per tenor column (lines 125, 142, 150). -/
structure WideRow where
  period : String
  yields : List YCell
deriving DecidableEq, Repr

/-- Wide table: name of the first (period) column, the tenor column names, and
the data rows.  Mirrors the frame returned by pd.read_excel at line 125. -/
structure WideTable where
  periodCol : String
  tenorCols : List String
  rows : List WideRow
deriving DecidableEq, Repr

/-- Column list of a wide table (period column first, then tenors). -/
def WideTable.cols (w : WideTable) : List String :=
  w.periodCol :: w.tenorCols

/-- Row of plot_df after line 145/148: the wide row plus the derived
Period_Datetime value (none = NaT). -/
structure PlotRow where
  period : String
  periodDt : Option Nat
  yields : List YCell
deriving DecidableEq, Repr

/-- The frame plot_df built at lines 141-148. -/
structure PlotTable where
  periodCol : String
  tenorCols : List String
  rows : List PlotRow
deriving DecidableEq, Repr

/-- Tidy (long-form) row produced by the melt at lines 151-156: the two
id_vars (period label and Period_Datetime) plus the Tenor name and the Yield
cell. -/
structure TidyRow where
  period : String
  periodDt : Option Nat
  tenor : String
  yval : YCell
deriving DecidableEq, Repr

/-! ### Period label parsing (lines 144-148 and 305)

Timestamps are encoded as a month count, `year * 12 + (month - 1)`; this is
strictly monotone in the (year, month) pair and hence order-isomorphic to the
first-of-month datetimes the source produces. -/

/-- Split of a character list at every single space, the tokenization the
format of line 145 induces on a label such as "Jan 24". -/
def splitSp : List Char → List (List Char)
  | [] => [[]]
  | c :: cs =>
    if c = ' ' then [] :: splitSp cs
    else
      match splitSp cs with
      | [] => [[c]]
      | t :: ts => (c :: t) :: ts

/-- ASCII lowercase of a character; the month directive matches abbreviated
month names case-insensitively. -/
def lowerAscii (c : Char) : Char :=
  if 'A' ≤ c ∧ c ≤ 'Z' then Char.ofNat (c.toNat + 32) else c

/-- Value of an all-digit token, accumulator form. -/
def natOfDigitsGo (acc : Nat) : List Char → Option Nat
  | [] => some acc
  | c :: cs =>
    if c.isDigit then natOfDigitsGo (acc * 10 + (c.toNat - 48)) cs else none

/-- Value of a non-empty all-digit token, none otherwise. -/
def natOfDigits : List Char → Option Nat
  | [] => none
  | c :: cs => natOfDigitsGo 0 (c :: cs)

/-- Month number of a three-letter English month abbreviation, matched
case-insensitively as the strptime abbreviated-month directive does. -/
def monthNum (m : List Char) : Option Nat :=
  let s := m.map lowerAscii
  if s = "jan".toList then some 1 else if s = "feb".toList then some 2
  else if s = "mar".toList then some 3 else if s = "apr".toList then some 4
  else if s = "may".toList then some 5 else if s = "jun".toList then some 6
  else if s = "jul".toList then some 7 else if s = "aug".toList then some 8
  else if s = "sep".toList then some 9 else if s = "oct".toList then some 10
  else if s = "nov".toList then some 11 else if s = "dec".toList then some 12
  else none

/-- Century rule of the strptime two-digit-year directive: 00-68 map into the
2000s, 69-99 into the 1900s. -/
def fullYear (y : Nat) : Nat :=
  if y ≤ 68 then 2000 + y else 1900 + y

/-- Parse of a single label against the fixed format of line 145
(abbreviated month, one space, two-digit year, nothing else).  Returns the
month-count timestamp, or none when the label does not match. -/
def parseMonYY (s : String) : Option Nat :=
  match splitSp s.toList with
  | [m, y] =>
    match monthNum m, (if y.length = 2 then natOfDigits y else none) with
    | some mo, some yr => some (fullYear yr * 12 + (mo - 1))
    | _, _ => none
  | _ => none

/-- Best-effort generic parse used by the fallback at line 148
(pd.to_datetime without a format string).  Modelled for the label shapes this
program meets: an abbreviated month followed by a two- or four-digit year.
The claims below only consume the success or failure of this parse, never the
parsed value; a token such as "Qtr1" is not a recognizable date and fails,
as the underlying library parser does. -/
def parseGeneric (s : String) : Option Nat :=
  match splitSp s.toList with
  | [m, y] =>
    match monthNum m, natOfDigits y with
    | some mo, some yr =>
      if y.length = 2 then some (fullYear yr * 12 + (mo - 1))
      else if y.length = 4 then some (yr * 12 + (mo - 1))
      else none
    | _, _ => none
  | _ => none

/-- Whole-column parse with a fixed format: some list of timestamps when every
label matches, none when any label fails (pd.to_datetime with errors="raise"
fails on the whole column). -/
def parseAllWith (f : String → Option Nat) : List String → Option (List Nat)
  | [] => some []
  | l :: ls =>
    match f l, parseAllWith f ls with
    | some t, some ts => some (t :: ts)
    | _, _ => none

/-- Column-level model of line 145: pd.to_datetime(labels, format="%b %y"). -/
def to_datetime_fixed (labels : List String) : Except String (List Nat) :=
  match parseAllWith parseMonYY labels with
  | some ts => .ok ts
  | none => .error "ValueError: time data does not match format"

/-- Column-level model of line 148: pd.to_datetime(labels) with inferred
format.  A failure here is raised outside any try block of the source. -/
def to_datetime_generic (labels : List String) : Except String (List Nat) :=
  match parseAllWith parseGeneric labels with
  | some ts => .ok ts
  | none => .error "DateParseError: Unknown datetime string format"

/-- Column-level model of line 305: pd.to_datetime(labels, format="%b %y",
errors="coerce").  Unparseable labels become missing (NaT), nothing raises. -/
def to_datetime_coerce (labels : List String) : List (Option Nat) :=
  labels.map parseMonYY

/-- Timestamp derivation of lines 144-148: try the fixed format; on a
ValueError fall back to the generic parse; an error of the generic parse is
not caught and propagates. -/
def derive_Period_Datetime (labels : List String) : Except String (List Nat) :=
  match to_datetime_fixed labels with
  | .ok ts => .ok ts
  | .error _ => to_datetime_generic labels

/-- The plot frame obtained by attaching to every row the timestamp its own
label receives under the label parse f; lines 145 and 148 differ only in
which parse the whole column settles on. -/
def plotWith (f : String → Option Nat) (w : WideTable) : PlotTable :=
  { periodCol := w.periodCol, tenorCols := w.tenorCols,
    rows := w.rows.map fun r => ⟨r.period, f r.period, r.yields⟩ }

/-- The plot frame when the fixed parse of line 145 succeeds for the whole
column. -/
def plotFixed (w : WideTable) : PlotTable :=
  plotWith parseMonYY w

/-- The plot frame when the generic fallback of line 148 succeeds for the
whole column. -/
def plotGeneric (w : WideTable) : PlotTable :=
  plotWith parseGeneric w

/-- Construction of plot_df (lines 141-148) from the loaded wide table: a copy
of the table with the derived Period_Datetime column attached.  On success
every row carries the timestamp of its own label under whichever parse
succeeded for the column. -/
def mkPlot (w : WideTable) : Except String PlotTable :=
  match parseAllWith parseMonYY (w.rows.map (·.period)) with
  | some _ => .ok (plotFixed w)
  | none =>
    match parseAllWith parseGeneric (w.rows.map (·.period)) with
    | some _ => .ok (plotGeneric w)
    | none => .error "DateParseError: Unknown datetime string format"

/-! ### Melt (lines 151-156)

pandas melt emits the blocks of the value_vars columns in column order; inside
a block the input row order is kept.  The cell of row i and tenor column j is
the j-th entry of the row's yield list. -/

/-- Melt recursion over the tenor columns; j is the absolute index of the
first column of cs within the tenor column list. -/
def meltGo (rows : List PlotRow) : List String → Nat → List TidyRow
  | [], _ => []
  | c :: cs, j =>
    (rows.map fun r => ⟨r.period, r.periodDt, c, r.yields.getD j none⟩)
      ++ meltGo rows cs (j + 1)

/-- Melt of plot_df into long_df (lines 151-156): one tidy row per
(row, tenor column) pair, keeping missing yields. -/
def toTidy (p : PlotTable) : List TidyRow :=
  meltGo p.rows p.tenorCols 0

/-! ### Row sorting (lines 215, 231, 306): model of sort_values -/

/-- Nat value of an optional key for comparison among rows whose key is
present (the default only pads the type; it is never compared against a
present key across the missing/present split). -/
def keyNat (key : α → Option Nat) (x : α) : Nat :=
  (key x).getD 0

/-- Model of DataFrame.sort_values(by=k) with na_position="last": the rows
whose key is present, ordered by the key (insertion sort, stable), followed by
the rows whose key is missing in their original relative order, exactly as
pandas nargsort places them. -/
def sortByOptKey (key : α → Option Nat) (l : List α) : List α :=
  (List.insertionSort (fun a b => keyNat key a ≤ keyNat key b)
      (l.filter fun x => (key x).isSome))
    ++ l.filter fun x => (key x).isNone

/-- Comparison of optional keys as sort_values orders them: present keys by
value, any present key before any missing key, missing keys tied. -/
def okLe : Option Nat → Option Nat → Prop
  | some m, some n => m ≤ n
  | some _, none => True
  | none, none => True
  | none, some _ => False

instance : DecidableRel okLe := fun a b => by
  cases a <;> cases b <;> simp only [okLe] <;> infer_instance

/-- Canonical tenor list of line 214. -/
def tenor_order : List String :=
  ["7 Day", "14 Day", "1 Month", "2 Month", "3 Month", "4 Month", "5 Month",
   "6 Month", "7 Month", "8 Month", "9 Month", "10 Month", "11 Month",
   "12 Month"]

/-- Position of a tenor in the canonical list; none for a tenor absent from
it.  This is the category code given to the ordered Categorical at line 230
(absent tenors get the missing code). -/
def tenorRank (t : String) : Option Nat :=
  tenor_order.indexOf? t

/-- Sort of line 231: by the ordered Categorical built from tenor_order, so by
canonical position, with tenors absent from the canonical list last. -/
def byTenorOrder (l : List TidyRow) : List TidyRow :=
  sortByOptKey (fun r => tenorRank r.tenor) l

/-- Chronological sort of line 215 (also line 306 for the heatmap): by the
derived Period_Datetime, missing timestamps last. -/
def chronological (l : List TidyRow) : List TidyRow :=
  sortByOptKey (fun r => r.periodDt) l

/-- Slice of lines 229-231: keep the tidy rows of the selected period, then
order them by the canonical tenor order. -/
def sliceByPeriod (tidy : List TidyRow) (label : String) : List TidyRow :=
  byTenorOrder (tidy.filter fun r => r.period == label)

/-! ### Unique period list and default selection (lines 216, 222-227) -/

/-- Helper of uniqueFirst: drop the elements already seen. -/
def uniqueFirstGo [DecidableEq α] (seen : List α) : List α → List α
  | [] => []
  | x :: xs =>
    if x ∈ seen then uniqueFirstGo seen xs
    else x :: uniqueFirstGo (x :: seen) xs

/-- Model of Series.unique (line 216): the distinct values in order of first
occurrence. -/
def uniqueFirst [DecidableEq α] (l : List α) : List α :=
  uniqueFirstGo [] l

/-- The options offered by the period slider (line 216), given the
chronologically sorted long frame. -/
def allPeriodsOf (chron : List TidyRow) : List String :=
  uniqueFirst (chron.map (·.period))

/-- Default slider value of line 225: all_periods[-1].  Negative indexing of
an empty python list raises IndexError. -/
def defaultPeriod (allPeriods : List String) : Except String String :=
  match allPeriods.getLast? with
  | some p => .ok p
  | none => .error "IndexError: list index out of range"

/-! ### Heatmap reshaping (lines 304-309) -/

/-- The heatmap frame after lines 304-309: rows of the (copied) wide table
sorted by the coerced timestamp, indexed by the period label, with the helper
timestamp column dropped again. -/
structure HeatTable where
  index : List String
  tenorCols : List String
  rows : List (List YCell)
deriving DecidableEq, Repr

/-- Heatmap construction of lines 304-309 applied to a copy of the cached
table. -/
def heatmapOf (w : WideTable) : HeatTable :=
  let sorted := sortByOptKey (fun r => parseMonYY r.period) w.rows
  ⟨sorted.map (·.period), w.tenorCols, sorted.map (·.yields)⟩

/-! ### Load and the empty gate (lines 122-134, 140, 342-343) -/

/-- Outcome of reading the spreadsheet path, abstracting the filesystem: the
file parses to a table, the file is missing (FileNotFoundError, line 127), or
reading fails with some other exception (line 130). -/
inductive ReadOutcome where
  | found (t : WideTable)
  | missing
  | malformed (msg : String)
deriving DecidableEq, Repr

/-- The empty frame pd.DataFrame() returned by the failure branches at lines
129 and 132: no columns, no rows. -/
def emptyTable : WideTable :=
  { periodCol := "", tenorCols := [], rows := [] }

/-- Model of load_data (lines 122-132): the parsed table, or the empty table
when the file is missing or cannot be read, never a propagated error. -/
def load_data : ReadOutcome → WideTable
  | .found t => t
  | .missing => emptyTable
  | .malformed _ => emptyTable

/-- Emptiness test used by the gate at line 140 (DataFrame.empty; the frames
this program meets are empty exactly when they have no rows, and the failure
table has no rows). -/
def WideTable.isEmptyTable (w : WideTable) : Bool :=
  w.rows.isEmpty

/-- Everything the charting half of the page computes from a non-empty table. -/
structure AppOutputs where
  plot : PlotTable
  long : List TidyRow
  chron : List TidyRow
  allPeriods : List String
  selected : String
  slice : List TidyRow
  heat : HeatTable
deriving Repr

/-- Value copy taken by DataFrame.copy() (lines 141, 229, 304): downstream
writes go to the copy, never back to the source frame. -/
def copyFrame (w : WideTable) : WideTable := w

/-- The whole charting pipeline (lines 141-309) in state-passing form.  The
first component threads the cached frame tbill_data_df through the run: every
step of the source that derives data first takes a copy (lines 141, 229, 304)
or builds a fresh frame (melt, sort_values), so the cached frame is returned
as it came in.  The second component is the Except-valued result: the
uncaught parse failure of line 148 and the IndexError of line 225 on an empty
option list abort the run. -/
def runApp (tbill : WideTable) : WideTable × Except String AppOutputs :=
  match mkPlot (copyFrame tbill) with
  | .error e => (tbill, .error e)
  | .ok plot =>
    let long := toTidy plot
    let chron := chronological long
    let ap := allPeriodsOf chron
    match defaultPeriod ap with
    | .error e => (tbill, .error e)
    | .ok sel =>
      let slice := sliceByPeriod chron sel
      let heat := heatmapOf (copyFrame tbill)
      (tbill, .ok ⟨plot, long, chron, ap, sel, slice, heat⟩)

/-- Informational message of line 343. -/
def infoMsg : String :=
  "No T-Bills data available. Please ensure the spreadsheet exists and is correctly formatted."

/-- What the page renders: the charts, a surfaced runtime error, or the
informational message of the no-data branch. -/
inductive Rendered where
  | charts (o : AppOutputs)
  | failed (e : String)
  | info (msg : String)
deriving Repr

/-- Top-level control flow of lines 134, 140 and 342-343: load, then either
run the charting pipeline or render the informational message. -/
def appMain (r : ReadOutcome) : Rendered :=
  let df := load_data r
  if df.isEmptyTable then .info infoMsg
  else
    match (runApp df).2 with
    | .ok o => .charts o
    | .error e => .failed e

/-- Collection of the yields of the tidy rows with the given period label and
tenor: the group-by re-pivot of the round-trip property over the melt. -/
def pivotCell (tidy : List TidyRow) (p tn : String) : List YCell :=
  (tidy.filter fun r => r.period == p && r.tenor == tn).map (·.yval)

/-- Timestamp a label receives under whichever column-level parse the
derivation of lines 144-148 settles on for this table: the fixed parse when
it succeeds for the whole column, the generic fallback otherwise. -/
def dtDerived (w : WideTable) (p : String) : Option Nat :=
  match parseAllWith parseMonYY (w.rows.map (·.period)) with
  | some _ => parseMonYY p
  | none => parseGeneric p

/-- The option list offered by the period slider, derived from the wide table
as lines 141-216 do: derive timestamps, melt, sort chronologically, take the
distinct period labels in order. -/
def appAllPeriods (w : WideTable) : Except String (List String) :=
  (mkPlot w).map fun p => allPeriodsOf (chronological (toTidy p))

/-- The default slider selection of line 225 (all_periods[-1]) derived from
the wide table. -/
def appSelected (w : WideTable) : Except String String :=
  match appAllPeriods w with
  | .ok ap => defaultPeriod ap
  | .error e => .error e

/-! ### Example inputs used by witnesses and counterexamples -/

/-- Example plot frame: two periods, two tenors, one missing yield. -/
def pEx1 : PlotTable :=
  { periodCol := "Period", tenorCols := ["3 Month", "6 Month"],
    rows := [{ period := "Jan 24", periodDt := some 24288, yields := [some (68/10), some (69/10)] },
             { period := "Feb 24", periodDt := some 24289, yields := [some (67/10), none] }] }

/-- Example tidy rows: two periods, canonical and non-canonical tenors. -/
def tidyEx1 : List TidyRow :=
  [{ period := "Feb 24", periodDt := some 24289, tenor := "6 Month", yval := some (685/100) },
   { period := "Feb 24", periodDt := some 24289, tenor := "3 Month", yval := some (67/10) },
   { period := "Jan 24", periodDt := some 24288, tenor := "3 Month", yval := some (68/10) },
   { period := "Feb 24", periodDt := some 24289, tenor := "18 Month", yval := none }]

/-- Example wide table: two periods, one tenor column. -/
def wEx1 : WideTable :=
  { periodCol := "Period", tenorCols := ["3 Month"],
    rows := [{ period := "Jan 24", yields := [some (68/10)] },
             { period := "Feb 24", yields := [some (67/10)] }] }

/-- Example wide table whose labels fail the fixed format but parse under the
generic fallback, given out of chronological order. -/
def wGen : WideTable :=
  { periodCol := "Period", tenorCols := ["3 Month"],
    rows := [{ period := "Feb 2024", yields := [some (67/10)] },
             { period := "Jan 2024", yields := [some (68/10)] }] }

/-- Wide table with a period row but no tenor columns: loaded non-empty, yet
the melt is empty, so the option list of the period slider is empty and
all_periods[-1] raises. -/
def wNoTenors : WideTable :=
  { periodCol := "Period", tenorCols := [],
    rows := [{ period := "Jan 24", yields := [] }] }

/-! ### Generic lemmas about the sort model -/

theorem sortByOptKey_nil (key : α → Option Nat) : sortByOptKey key [] = [] := rfl

theorem sortByOptKey_perm (key : α → Option Nat) (l : List α) :
    (sortByOptKey key l).Perm l := by
  have h1 : (List.insertionSort (fun a b => keyNat key a ≤ keyNat key b)
      (l.filter fun x => (key x).isSome)).Perm (l.filter fun x => (key x).isSome) :=
    List.perm_insertionSort _ _
  have h2 : ((l.filter fun x => (key x).isSome) ++ (l.filter fun x => (key x).isNone)).Perm l := by
    have he : (l.filter fun x => (key x).isNone) = l.filter fun x => !(key x).isSome := by
      apply List.filter_congr
      intro x _
      cases key x <;> rfl
    rw [he]
    exact List.filter_append_perm _ l
  exact ((h1.append (List.Perm.refl _)).trans h2)

theorem mem_sortByOptKey {key : α → Option Nat} {l : List α} {x : α} :
    x ∈ sortByOptKey key l ↔ x ∈ l :=
  (sortByOptKey_perm key l).mem_iff

theorem sortByOptKey_pairwise (key : α → Option Nat) (l : List α) :
    (sortByOptKey key l).Pairwise fun a b => okLe (key a) (key b) := by
  rw [sortByOptKey]
  apply List.pairwise_append.mpr
  refine ⟨?_, ?_, ?_⟩
  · have hs : List.Sorted (fun a b => keyNat key a ≤ keyNat key b)
        (List.insertionSort (fun a b => keyNat key a ≤ keyNat key b)
          (l.filter fun x => (key x).isSome)) := by
      haveI : IsTotal α fun a b => keyNat key a ≤ keyNat key b :=
        ⟨fun a b => Nat.le_total _ _⟩
      haveI : IsTrans α fun a b => keyNat key a ≤ keyNat key b :=
        ⟨fun _ _ _ hab hbc => Nat.le_trans hab hbc⟩
      exact List.sorted_insertionSort _ _
    refine hs.imp_of_mem ?_
    intro a b ha hb hab
    have ha2 : (key a).isSome := by
      have := List.mem_filter.mp ((List.mem_insertionSort _).mp ha)
      exact this.2
    have hb2 : (key b).isSome := by
      have := List.mem_filter.mp ((List.mem_insertionSort _).mp hb)
      exact this.2
    cases hka : key a with
    | none => rw [hka] at ha2; simp at ha2
    | some m =>
      cases hkb : key b with
      | none => rw [hkb] at hb2; simp at hb2
      | some n =>
        have hmn : m ≤ n := by simpa [keyNat, hka, hkb] using hab
        simpa [okLe] using hmn
  · apply List.pairwise_of_forall_mem_list
    intro a ha b hb
    have ha2 : (key a).isNone := (List.mem_filter.mp ha).2
    have hb2 : (key b).isNone := (List.mem_filter.mp hb).2
    cases hka : key a with
    | some m => rw [hka] at ha2; simp at ha2
    | none =>
      cases hkb : key b with
      | some n => rw [hkb] at hb2; simp at hb2
      | none => trivial
  · intro a ha b hb
    have ha2 : (key a).isSome := (List.mem_filter.mp ((List.mem_insertionSort _).mp ha)).2
    have hb2 : (key b).isNone := (List.mem_filter.mp hb).2
    cases hka : key a with
    | none => rw [hka] at ha2; simp at ha2
    | some m =>
      cases hkb : key b with
      | some n => rw [hkb] at hb2; simp at hb2
      | none => trivial

theorem sortByOptKey_filter_none (key : α → Option Nat) (l : List α) :
    (sortByOptKey key l).filter (fun x => (key x).isNone)
      = l.filter fun x => (key x).isNone := by
  rw [sortByOptKey, List.filter_append]
  have h1 : (List.insertionSort (fun a b => keyNat key a ≤ keyNat key b)
      (l.filter fun x => (key x).isSome)).filter (fun x => (key x).isNone) = [] := by
    apply List.filter_eq_nil_iff.mpr
    intro a ha
    have ha2 : (key a).isSome := (List.mem_filter.mp ((List.mem_insertionSort _).mp ha)).2
    cases hka : key a with
    | none => rw [hka] at ha2; simp at ha2
    | some m => simp [hka]
  have h2 : (l.filter fun x => (key x).isNone).filter (fun x => (key x).isNone)
      = l.filter fun x => (key x).isNone := by
    apply List.filter_eq_self.mpr
    intro a ha
    exact (List.mem_filter.mp ha).2
  rw [h1, h2, List.nil_append]

/-! ### Generic lemmas about uniqueFirst -/

theorem uniqueFirstGo_sublist [DecidableEq α] (seen : List α) (l : List α) :
    (uniqueFirstGo seen l).Sublist l := by
  induction l generalizing seen with
  | nil => simp [uniqueFirstGo]
  | cons x xs ih =>
    rw [uniqueFirstGo]
    by_cases hx : x ∈ seen
    · rw [if_pos hx]
      exact (ih seen).trans (List.sublist_cons_self x xs)
    · rw [if_neg hx]
      exact (ih (x :: seen)).cons₂ x

theorem mem_uniqueFirstGo [DecidableEq α] {seen : List α} {l : List α} {x : α} :
    x ∈ uniqueFirstGo seen l ↔ x ∈ l ∧ x ∉ seen := by
  induction l generalizing seen with
  | nil => simp [uniqueFirstGo]
  | cons y ys ih =>
    rw [uniqueFirstGo]
    by_cases hy : y ∈ seen
    · rw [if_pos hy, ih]
      constructor
      · rintro ⟨h1, h2⟩
        exact ⟨List.mem_cons_of_mem y h1, h2⟩
      · rintro ⟨h1, h2⟩
        rcases List.mem_cons.mp h1 with rfl | h1
        · exact absurd hy h2
        · exact ⟨h1, h2⟩
    · rw [if_neg hy]
      constructor
      · intro h
        rcases List.mem_cons.mp h with rfl | h
        · exact ⟨List.mem_cons_self x ys, hy⟩
        · have := ih.mp h
          refine ⟨List.mem_cons_of_mem y this.1, fun hc => this.2 (List.mem_cons_of_mem y hc)⟩
      · rintro ⟨h1, h2⟩
        rcases List.mem_cons.mp h1 with rfl | h1
        · exact List.mem_cons_self x _
        · by_cases hxy : x = y
          · subst hxy
            exact List.mem_cons_self x _
          · refine List.mem_cons_of_mem y (ih.mpr ⟨h1, fun hc => ?_⟩)
            rcases List.mem_cons.mp hc with h | h
            · exact hxy h
            · exact h2 h

theorem nodup_uniqueFirstGo [DecidableEq α] (seen : List α) (l : List α) :
    (uniqueFirstGo seen l).Nodup := by
  induction l generalizing seen with
  | nil => simp [uniqueFirstGo]
  | cons y ys ih =>
    rw [uniqueFirstGo]
    by_cases hy : y ∈ seen
    · rw [if_pos hy]; exact ih seen
    · rw [if_neg hy]
      refine List.nodup_cons.mpr ⟨fun hc => ?_, ih (y :: seen)⟩
      exact (mem_uniqueFirstGo.mp hc).2 (List.mem_cons_self y seen)

theorem uniqueFirst_sublist [DecidableEq α] (l : List α) : (uniqueFirst l).Sublist l :=
  uniqueFirstGo_sublist [] l

theorem mem_uniqueFirst [DecidableEq α] {l : List α} {x : α} :
    x ∈ uniqueFirst l ↔ x ∈ l := by
  rw [uniqueFirst, mem_uniqueFirstGo]
  simp

theorem nodup_uniqueFirst [DecidableEq α] (l : List α) : (uniqueFirst l).Nodup :=
  nodup_uniqueFirstGo [] l

/-- The value reported by getLast? is a member of the list. -/
theorem mem_of_getLast?_eq : ∀ {l : List α} {z : α}, l.getLast? = some z → z ∈ l := by
  intro l
  induction l with
  | nil => intro z hz; cases hz
  | cons a t ih =>
    intro z hz
    cases t with
    | nil =>
      simp at hz
      exact List.mem_singleton.mpr hz.symm
    | cons b t2 =>
      rw [List.getLast?_cons_cons] at hz
      exact List.mem_cons_of_mem a (ih hz)

/-- Any member of a pairwise-ordered list is related to the last element
(or is the last element itself). -/
theorem rel_getLast_of_pairwise {R : α → α → Prop} :
    ∀ {l : List α} {z x : α}, l.Pairwise R → l.getLast? = some z → x ∈ l →
      x = z ∨ R x z := by
  intro l
  induction l with
  | nil => intro z x _ hz hx; cases hx
  | cons a t ih =>
    intro z x hp hz hx
    cases t with
    | nil =>
      simp at hz
      rcases List.mem_singleton.mp hx with rfl
      exact Or.inl hz
    | cons b t2 =>
      have hz2 : (b :: t2).getLast? = some z := by
        rwa [List.getLast?_cons_cons] at hz
      have hzmem : z ∈ b :: t2 := mem_of_getLast?_eq hz2
      rcases List.mem_cons.mp hx with rfl | hx2
      · exact Or.inr ((List.pairwise_cons.mp hp).1 z hzmem)
      · exact ih (List.pairwise_cons.mp hp).2 hz2 hx2

/-! ### Lemmas about the melt -/

theorem meltGo_length (rows : List PlotRow) :
    ∀ (cs : List String) (off : Nat),
      (meltGo rows cs off).length = cs.length * rows.length := by
  intro cs
  induction cs with
  | nil => intro off; simp [meltGo]
  | cons c cs2 ih =>
    intro off
    simp only [meltGo, List.length_append, List.length_map, ih, List.length_cons]
    rw [Nat.succ_mul]
    omega

theorem meltGo_getElem (rows : List PlotRow) :
    ∀ (cs : List String) (off k i : Nat) (c : String) (row : PlotRow),
      rows[i]? = some row → cs[k]? = some c →
      (meltGo rows cs off)[k * rows.length + i]? =
        some ⟨row.period, row.periodDt, c, row.yields.getD (off + k) none⟩ := by
  intro cs
  induction cs with
  | nil => intro off k i c row _ hc; cases hc
  | cons c0 cs2 ih =>
    intro off k i c row hr hc
    simp only [meltGo]
    cases k with
    | zero =>
      have hc0 : c0 = c := by simpa using hc
      subst hc0
      have hi : i < rows.length := (List.getElem?_eq_some.mp hr).1
      rw [List.getElem?_append]
      rw [List.length_map]
      simp only [Nat.zero_mul, Nat.zero_add]
      rw [if_pos hi, List.getElem?_map, hr]
      simp
    | succ k2 =>
      have hc2 : cs2[k2]? = some c := by simpa using hc
      have hmul : (k2 + 1) * rows.length + i
          = k2 * rows.length + rows.length + i := by
        rw [Nat.succ_mul]
      rw [hmul, List.getElem?_append, List.length_map, if_neg (by omega)]
      have hsub : k2 * rows.length + rows.length + i - rows.length
          = k2 * rows.length + i := by omega
      rw [hsub]
      have := ih (off + 1) k2 i c row hr hc2
      rw [this]
      have harith : off + 1 + k2 = off + (k2 + 1) := by omega
      rw [harith]

/-- C1: melting a wide (plot) table with r rows and t tenor columns yields
exactly r times t tidy rows, one per (row, tenor column) pair, and no row is
dropped even when its yield cell is missing: the tidy row at position
j * r + i carries the period and timestamp of input row i, the name of tenor
column j, and the possibly missing cell of row i at column j. -/
theorem claim_C1 (p : PlotTable) :
    (toTidy p).length = p.rows.length * p.tenorCols.length ∧
    ∀ i j c row, p.rows[i]? = some row → p.tenorCols[j]? = some c →
      (toTidy p)[j * p.rows.length + i]? =
        some ⟨row.period, row.periodDt, c, row.yields.getD j none⟩ := by
  constructor
  · rw [toTidy, meltGo_length, Nat.mul_comm]
  · intro i j c row hr hc
    have := meltGo_getElem p.rows p.tenorCols 0 j i c row hr hc
    simpa [toTidy] using this

/-- Witness for C1: on the two-by-two example table the melt has four rows and
the last one is the pair (row 1, column 1), whose yield is missing. -/
theorem claim_C1_witness :
    (toTidy pEx1).length = 4 ∧
    (toTidy pEx1)[3]? = some ⟨"Feb 24", some 24289, "6 Month", none⟩ := by
  have h := claim_C1 pEx1
  constructor
  · rw [h.1]; rfl
  · have h2 := h.2 1 1 "6 Month"
      { period := "Feb 24", periodDt := some 24289, yields := [some (67/10), none] }
      rfl rfl
    simpa [pEx1] using h2

/-- C2: the period slice of lines 229-231 consists exactly of the tidy rows
whose period label equals the selected label, as a reordering given by the
canonical tenor sort byTenorOrder; for a label absent from the input it is
empty, and the operation is a total function, so it never raises. -/
theorem claim_C2 (tidy : List TidyRow) (label : String) :
    (∀ r ∈ sliceByPeriod tidy label, r.period = label) ∧
    (sliceByPeriod tidy label).Perm (tidy.filter fun r => r.period == label) ∧
    ((∀ r ∈ tidy, r.period ≠ label) → sliceByPeriod tidy label = []) ∧
    sliceByPeriod tidy label = byTenorOrder (tidy.filter fun r => r.period == label) := by
  refine ⟨?_, sortByOptKey_perm _ _, ?_, rfl⟩
  · intro r hr
    have h1 : r ∈ tidy.filter fun rr => rr.period == label := mem_sortByOptKey.mp hr
    exact eq_of_beq (List.mem_filter.mp h1).2
  · intro h
    have hn : tidy.filter (fun rr => rr.period == label) = [] := by
      apply List.filter_eq_nil_iff.mpr
      intro a ha
      simpa using h a ha
    show byTenorOrder (tidy.filter fun rr => rr.period == label) = []
    rw [hn]
    rfl

/-- Witness for C2: slicing the example tidy rows by a period label absent
from them returns the empty sequence. -/
theorem claim_C2_witness : sliceByPeriod tidyEx1 "Mar 24" = [] :=
  (claim_C2 tidyEx1 "Mar 24").2.2.1 (by decide)

/-- C3: the canonical tenor sort is a permutation of its input in which every
row whose tenor occurs in tenor_order comes before every row whose tenor does
not (okLe forbids a missing rank before a present one), rows with canonical
tenors appear in canonical relative order (okLe orders present ranks), and
the rows with non-canonical tenors keep exactly their original relative
order. -/
theorem claim_C3 (l : List TidyRow) :
    (byTenorOrder l).Perm l ∧
    (byTenorOrder l).Pairwise (fun a b => okLe (tenorRank a.tenor) (tenorRank b.tenor)) ∧
    (byTenorOrder l).filter (fun r => (tenorRank r.tenor).isNone)
      = l.filter fun r => (tenorRank r.tenor).isNone :=
  ⟨sortByOptKey_perm _ _, sortByOptKey_pairwise _ _, sortByOptKey_filter_none _ _⟩

/-- Counterexample for C5: for the label column ["Qtr1"] both the fixed parse
and the generic fallback fail, and the derivation of lines 144-148 surfaces
the uncaught error of line 148, aborting the pipeline instead of marking the
timestamp missing and keeping the row. -/
theorem claim_C5_counterexample :
    derive_Period_Datetime ["Qtr1"]
        = .error "DateParseError: Unknown datetime string format" ∧
    to_datetime_fixed ["Qtr1"]
        = .error "ValueError: time data does not match format" := by
  constructor <;> rfl

/-- C5 as amended: the derivation first attempts the fixed parse of the whole
column and keeps its result on success; when the fixed parse fails it falls
back to the generic parse of the column, whose own failure propagates; the
separate heatmap derivation (line 305) instead coerces, keeping one entry per
label and marking exactly the labels that fail the fixed parse as missing. -/
theorem claim_C5_amended (labels : List String) :
    (∀ ts, to_datetime_fixed labels = .ok ts →
      derive_Period_Datetime labels = .ok ts) ∧
    (∀ e, to_datetime_fixed labels = .error e →
      derive_Period_Datetime labels = to_datetime_generic labels) ∧
    (to_datetime_coerce labels).length = labels.length ∧
    (∀ (i : Nat) (lab : String), labels[i]? = some lab →
      (to_datetime_coerce labels)[i]? = some (parseMonYY lab)) := by
  refine ⟨?_, ?_, by simp [to_datetime_coerce], ?_⟩
  · intro ts h
    unfold derive_Period_Datetime
    rw [h]
  · intro e h
    unfold derive_Period_Datetime
    rw [h]
  · intro i lab h
    show (labels.map parseMonYY)[i]? = some (parseMonYY lab)
    rw [List.getElem?_map, h]
    rfl

/-- Witness for the amended C5: on the column ["Jan 24", "Qtr1"] the fixed
parse fails, so the derivation equals the generic fallback, and the coercing
heatmap parse turns exactly the unparseable label into a missing value. -/
theorem claim_C5_amended_witness :
    derive_Period_Datetime ["Jan 24", "Qtr1"]
        = to_datetime_generic ["Jan 24", "Qtr1"] ∧
    (to_datetime_coerce ["Jan 24", "Qtr1"])[1]? = some none := by
  have h := claim_C5_amended ["Jan 24", "Qtr1"]
  refine ⟨h.2.1 "ValueError: time data does not match format" (by rfl), ?_⟩
  have h2 := h.2.2.2 1 "Qtr1" (by rfl)
  rw [h2]
  rfl

/-- C6: loading substitutes the empty table both when the file is missing and
when it cannot be read as tabular data, and the page renders charts only for
a non-empty loaded table; whenever the loaded table is empty the page renders
precisely the informational message. -/
theorem claim_C6 :
    load_data .missing = emptyTable ∧
    (∀ m, load_data (.malformed m) = emptyTable) ∧
    (∀ r, (load_data r).isEmptyTable = true → appMain r = .info infoMsg) ∧
    (∀ r o, appMain r = .charts o → (load_data r).isEmptyTable = false) := by
  refine ⟨rfl, fun _ => rfl, ?_, ?_⟩
  · intro r h
    simp [appMain, h]
  · intro r o h
    by_cases hc : (load_data r).isEmptyTable = true
    · exfalso
      simp [appMain, hc] at h
    · simpa using hc

/-- Witness for C6: a missing file renders the informational message. -/
theorem claim_C6_witness : appMain .missing = .info infoMsg :=
  claim_C6.2.2.1 .missing rfl

/-! ### Round-trip lemmas (melt then group by period and tenor) -/

/-- The value reported by getElem? is a member of the list. -/
theorem mem_of_getElem?_eq {l : List α} {i : Nat} {a : α} (h : l[i]? = some a) :
    a ∈ l := by
  obtain ⟨hlt, rfl⟩ := List.getElem?_eq_some.mp h
  exact List.getElem_mem hlt

/-- When the period labels are distinct, filtering the rows by the label of a
member row keeps exactly that row. -/
theorem filter_period_eq_of_nodup :
    ∀ {rows : List PlotRow} {row : PlotRow},
      (rows.map (·.period)).Nodup → row ∈ rows →
      rows.filter (fun r => r.period == row.period) = [row] := by
  intro rows
  induction rows with
  | nil => intro row _ h; cases h
  | cons x xs ih =>
    intro row hnd hmem
    have hndc : (x.period :: xs.map (·.period)).Nodup := by
      rw [List.map_cons] at hnd
      exact hnd
    have hnd2 := List.nodup_cons.mp hndc
    rcases List.mem_cons.mp hmem with rfl | hmem2
    · rw [List.filter_cons, if_pos (by simp)]
      have hrest : xs.filter (fun r => r.period == row.period) = [] := by
        apply List.filter_eq_nil_iff.mpr
        intro a ha hbeq
        exact hnd2.1 (eq_of_beq hbeq ▸ List.mem_map_of_mem (·.period) ha)
      rw [hrest]
    · have hx : ¬(x.period == row.period) = true := by
        intro hbeq
        exact hnd2.1 (eq_of_beq hbeq ▸ List.mem_map_of_mem (·.period) hmem2)
      rw [List.filter_cons, if_neg (by simpa using hx)]
      exact ih hnd2.2 hmem2

/-- Blocks of the melt for tenor columns other than the probed tenor
contribute nothing to the group. -/
theorem meltGo_filter_not_mem (rows : List PlotRow) (pl tn : String) :
    ∀ (cs : List String) (off : Nat), (∀ c0 ∈ cs, c0 ≠ tn) →
      (meltGo rows cs off).filter (fun r => r.period == pl && r.tenor == tn) = [] := by
  intro cs
  induction cs with
  | nil => intro off _; rfl
  | cons c0 cs2 ih =>
    intro off h
    simp only [meltGo, List.filter_append]
    rw [ih (off + 1) (fun c hc => h c (List.mem_cons_of_mem _ hc)), List.append_nil]
    apply List.filter_eq_nil_iff.mpr
    intro a ha
    obtain ⟨r, _, rfl⟩ := List.mem_map.mp ha
    have hne : c0 ≠ tn := h c0 (List.mem_cons_self _ _)
    simp [hne]

/-- Group of the melt at a member row label and a tenor column with distinct
labels and distinct tenor names: exactly the one melted row of that cell. -/
theorem meltGo_filter_pivot (rows : List PlotRow) (row : PlotRow)
    (hmem : row ∈ rows) (hnd : (rows.map (·.period)).Nodup) :
    ∀ (cs : List String) (off j : Nat) (c : String),
      cs.Nodup → cs[j]? = some c →
      (meltGo rows cs off).filter (fun r => r.period == row.period && r.tenor == c)
        = [⟨row.period, row.periodDt, c, row.yields.getD (off + j) none⟩] := by
  intro cs
  induction cs with
  | nil => intro off j c _ hc; cases hc
  | cons c0 cs2 ih =>
    intro off j c hn hc
    simp only [meltGo, List.filter_append]
    cases j with
    | zero =>
      have hc0 : c0 = c := by simpa using hc
      subst hc0
      rw [List.filter_map]
      have hfe : ((fun r : TidyRow => r.period == row.period && r.tenor == c0) ∘
          (fun r : PlotRow => (⟨r.period, r.periodDt, c0, r.yields.getD off none⟩ : TidyRow)))
          = fun r : PlotRow => r.period == row.period := by
        funext r
        simp
      rw [hfe, filter_period_eq_of_nodup hnd hmem]
      have hnotin : ∀ c2 ∈ cs2, c2 ≠ c0 := by
        intro c2 hc2 he
        exact (List.nodup_cons.mp hn).1 (he ▸ hc2)
      rw [meltGo_filter_not_mem rows row.period c0 cs2 (off + 1) hnotin]
      simp
    | succ j2 =>
      have hc2 : cs2[j2]? = some c := by simpa using hc
      have hcc : c0 ≠ c := by
        intro he
        exact (List.nodup_cons.mp hn).1 (he ▸ mem_of_getElem?_eq hc2)
      have h1 : (rows.map fun r =>
          (⟨r.period, r.periodDt, c0, r.yields.getD off none⟩ : TidyRow)).filter
          (fun r => r.period == row.period && r.tenor == c) = [] := by
        apply List.filter_eq_nil_iff.mpr
        intro a ha
        obtain ⟨r, _, rfl⟩ := List.mem_map.mp ha
        simp [hcc]
      rw [h1, List.nil_append, ih (off + 1) j2 c (List.nodup_cons.mp hn).2 hc2]
      have harith : off + 1 + j2 = off + (j2 + 1) := by omega
      rw [harith]

/-- C8: melting a wide (plot) table whose rows are keyed by distinct period
labels and whose tenor columns are distinct, and then re-pivoting by grouping
the tidy rows on (period label, tenor), recovers exactly the original yield
cell of every (row, column) pair, missing cells included. -/
theorem claim_C8 (p : PlotTable) (i j : Nat) (c : String) (row : PlotRow)
    (hnp : (p.rows.map (·.period)).Nodup) (hnt : p.tenorCols.Nodup)
    (hr : p.rows[i]? = some row) (hc : p.tenorCols[j]? = some c) :
    pivotCell (toTidy p) row.period c = [row.yields.getD j none] := by
  have hmem : row ∈ p.rows := mem_of_getElem?_eq hr
  unfold pivotCell toTidy
  rw [meltGo_filter_pivot p.rows row hmem hnp p.tenorCols 0 j c hnt hc]
  simp

/-- Witness for C8: on the example table, the group at ("Feb 24", "6 Month")
recovers exactly the original missing cell. -/
theorem claim_C8_witness : pivotCell (toTidy pEx1) "Feb 24" "6 Month" = [none] := by
  have h := claim_C8 pEx1 1 1 "6 Month"
    { period := "Feb 24", periodDt := some 24289, yields := [some (67/10), none] }
    (by decide) (by decide) rfl rfl
  exact h.trans (by rfl)

/-- C9: the charting pipeline never writes back to the cached loaded table:
after the whole run the cached frame is unchanged, and in particular no
Period_Datetime column has been added to it (the derivations at lines 145,
148 and 305 write to the copies taken at lines 141 and 304). -/
theorem claim_C9 (w : WideTable) :
    (runApp w).1 = w ∧
    ("Period_Datetime" ∉ w.cols → "Period_Datetime" ∉ (runApp w).1.cols) := by
  have h1 : (runApp w).1 = w := by
    unfold runApp
    split
    · rfl
    · dsimp only
      split <;> rfl
  exact ⟨h1, fun h => h1.symm ▸ h⟩

/-- Witness for C9: on the example table the run leaves the cached frame
without a Period_Datetime column. -/
theorem claim_C9_witness : "Period_Datetime" ∉ (runApp wEx1).1.cols :=
  (claim_C9 wEx1).2 (by decide)

/-! ### Lemmas for the period slider (lines 215-227) -/

theorem parseAllWith_isSome (f : String → Option Nat) :
    ∀ ls : List String, (∀ l ∈ ls, (f l).isSome) →
      ∃ ts, parseAllWith f ls = some ts := by
  intro ls
  induction ls with
  | nil => intro _; exact ⟨[], rfl⟩
  | cons a as ih =>
    intro h
    obtain ⟨t, ht⟩ := Option.isSome_iff_exists.mp (h a (List.mem_cons_self _ _))
    obtain ⟨ts, hts⟩ := ih fun l hl => h l (List.mem_cons_of_mem _ hl)
    exact ⟨t :: ts, by simp [parseAllWith, ht, hts]⟩

/-- When every label matches the fixed format, line 145 succeeds and plot_df
is the fixed-parse frame. -/
theorem mkPlot_of_fixed (w : WideTable)
    (h : ∀ r ∈ w.rows, (parseMonYY r.period).isSome) :
    mkPlot w = .ok (plotFixed w) := by
  obtain ⟨ts, hts⟩ := parseAllWith_isSome parseMonYY (w.rows.map (·.period)) (by
    intro l hl
    obtain ⟨r, hr, rfl⟩ := List.mem_map.mp hl
    exact h r hr)
  unfold mkPlot
  rw [hts]

/-- Every melted row takes its period and timestamp from some input row. -/
theorem mem_meltGo {rows : List PlotRow} :
    ∀ {cs : List String} {off : Nat} {t : TidyRow}, t ∈ meltGo rows cs off →
      ∃ r ∈ rows, t.period = r.period ∧ t.periodDt = r.periodDt := by
  intro cs
  induction cs with
  | nil =>
    intro off t h
    simp [meltGo] at h
  | cons c0 cs2 ih =>
    intro off t h
    simp only [meltGo] at h
    rcases List.mem_append.mp h with h | h
    · obtain ⟨r, hr, rfl⟩ := List.mem_map.mp h
      exact ⟨r, hr, rfl, rfl⟩
    · exact ih h

/-- With at least one tenor column, every input row produces a melted row
with its period label. -/
theorem period_mem_meltGo {rows : List PlotRow} {r : PlotRow} (hr : r ∈ rows)
    (c0 : String) (cs : List String) (off : Nat) :
    ∃ t ∈ meltGo rows (c0 :: cs) off, t.period = r.period := by
  refine ⟨⟨r.period, r.periodDt, c0, r.yields.getD off none⟩, ?_, rfl⟩
  simp only [meltGo]
  exact List.mem_append.mpr (Or.inl (List.mem_map_of_mem _ hr))

/-- In a plot frame built with the label parse f, every row timestamp is the
parse of its own label. -/
theorem plotWith_dt {f : String → Option Nat} {w : WideTable} {pr : PlotRow}
    (h : pr ∈ (plotWith f w).rows) : pr.periodDt = f pr.period := by
  obtain ⟨r, _, rfl⟩ := List.mem_map.mp h
  rfl

/-- The optional-key comparison is reflexive. -/
theorem okLe_refl (o : Option Nat) : okLe o o := by
  cases o with
  | none => trivial
  | some n => exact Nat.le_refl n

/-- Counterexample for C10: a non-empty loaded table with a period row but no
tenor columns.  The melt is empty, so the slider is offered no periods at all
even though the input has a period label, and the default selection
all_periods[-1] raises an IndexError instead of selecting a latest period. -/
theorem claim_C10_counterexample :
    wNoTenors.isEmptyTable = false ∧
    wNoTenors.rows.map (·.period) = ["Jan 24"] ∧
    appAllPeriods wNoTenors = .ok [] ∧
    appSelected wNoTenors = .error "IndexError: list index out of range" := by
  exact ⟨rfl, rfl, rfl, rfl⟩


/-- Properties of the slider option list for a plot frame built with any
label parse f: the options are the distinct input labels, in a chronological
(first-occurrence) order of their parsed timestamps, and a last option exists
whose timestamp no input label exceeds. -/
theorem slider_spec (f : String → Option Nat) (w : WideTable)
    (h1 : w.rows ≠ []) (h2 : w.tenorCols ≠ []) :
    (allPeriodsOf (chronological (toTidy (plotWith f w)))).Nodup ∧
    (∀ p, p ∈ allPeriodsOf (chronological (toTidy (plotWith f w)))
        ↔ p ∈ w.rows.map (·.period)) ∧
    (allPeriodsOf (chronological (toTidy (plotWith f w)))).Pairwise
        (fun a b => okLe (f a) (f b)) ∧
    ∃ lastp,
      (allPeriodsOf (chronological (toTidy (plotWith f w)))).getLast? = some lastp ∧
      ∀ p ∈ w.rows.map (·.period), okLe (f p) (f lastp) := by
  have hdt : ∀ t ∈ toTidy (plotWith f w), t.periodDt = f t.period := by
    intro t ht
    obtain ⟨r, hr, hpe, hde⟩ := mem_meltGo
      (show t ∈ meltGo (plotWith f w).rows (plotWith f w).tenorCols 0 from ht)
    rw [hde, hpe, plotWith_dt hr]
  have hperm : (chronological (toTidy (plotWith f w))).Perm (toTidy (plotWith f w)) :=
    sortByOptKey_perm _ _
  have hdtC : ∀ t ∈ chronological (toTidy (plotWith f w)), t.periodDt = f t.period :=
    fun t ht => hdt t (hperm.mem_iff.mp ht)
  have hpC : (chronological (toTidy (plotWith f w))).Pairwise
      (fun a b => okLe a.periodDt b.periodDt) := sortByOptKey_pairwise _ _
  have hmemL : ∀ p, p ∈ (toTidy (plotWith f w)).map (·.period)
      ↔ p ∈ w.rows.map (·.period) := by
    intro p
    constructor
    · intro hp
      obtain ⟨t, ht, rfl⟩ := List.mem_map.mp hp
      obtain ⟨r, hr, hpe, _⟩ := mem_meltGo
        (show t ∈ meltGo (plotWith f w).rows (plotWith f w).tenorCols 0 from ht)
      obtain ⟨r0, hr0, rfl⟩ := List.mem_map.mp hr
      rw [hpe]
      exact List.mem_map_of_mem _ hr0
    · intro hp
      obtain ⟨r0, hr0, rfl⟩ := List.mem_map.mp hp
      have hrmem : (⟨r0.period, f r0.period, r0.yields⟩ : PlotRow) ∈ (plotWith f w).rows :=
        List.mem_map_of_mem _ hr0
      cases hcs : w.tenorCols with
      | nil => exact absurd hcs h2
      | cons c0 cs =>
        obtain ⟨t, ht, hte⟩ := period_mem_meltGo hrmem c0 cs 0
        have ht2 : t ∈ toTidy (plotWith f w) := by
          show t ∈ meltGo (plotWith f w).rows (plotWith f w).tenorCols 0
          have hx : (plotWith f w).tenorCols = c0 :: cs := hcs
          rw [hx]
          exact ht
        exact List.mem_map.mpr ⟨t, ht2, by simpa using hte⟩
  have hmemC : ∀ p, p ∈ (chronological (toTidy (plotWith f w))).map (·.period)
      ↔ p ∈ w.rows.map (·.period) := by
    intro p
    rw [(hperm.map (·.period)).mem_iff]
    exact hmemL p
  have hnd : (allPeriodsOf (chronological (toTidy (plotWith f w)))).Nodup :=
    nodup_uniqueFirst _
  have hmem : ∀ p, p ∈ allPeriodsOf (chronological (toTidy (plotWith f w)))
      ↔ p ∈ w.rows.map (·.period) :=
    fun p => mem_uniqueFirst.trans (hmemC p)
  have hpmap : ((chronological (toTidy (plotWith f w))).map (·.period)).Pairwise
      (fun a b => okLe (f a) (f b)) := by
    rw [List.pairwise_map]
    refine hpC.imp_of_mem ?_
    intro a b ha hb hab
    rwa [hdtC a ha, hdtC b hb] at hab
  have hpap : (allPeriodsOf (chronological (toTidy (plotWith f w)))).Pairwise
      (fun a b => okLe (f a) (f b)) :=
    List.Pairwise.sublist (uniqueFirst_sublist _) hpmap
  have hapne : allPeriodsOf (chronological (toTidy (plotWith f w))) ≠ [] := by
    obtain ⟨r0, hr0⟩ : ∃ r0, r0 ∈ w.rows := by
      cases hrw : w.rows with
      | nil => exact absurd hrw h1
      | cons a t => exact ⟨a, List.mem_cons_self _ _⟩
    intro hnil
    have := (hmem r0.period).mpr (List.mem_map_of_mem _ hr0)
    rw [hnil] at this
    cases this
  obtain ⟨lastp, hlast⟩ :=
    Option.isSome_iff_exists.mp (List.getLast?_isSome.mpr hapne)
  refine ⟨hnd, hmem, hpap, lastp, hlast, ?_⟩
  intro p hp
  have hpap2 : p ∈ allPeriodsOf (chronological (toTidy (plotWith f w))) :=
    (hmem p).mpr hp
  rcases rel_getLast_of_pairwise hpap hlast hpap2 with rfl | hle
  · exact okLe_refl _
  · exact hle

/-- C10 as amended: for every non-empty loaded table that has at least one
tenor column and whose period-label column passes the timestamp derivation of
lines 144-148 (under the fixed parse or its generic fallback), the slider
options are exactly the distinct period labels of the input, listed in
chronological order of their derived timestamps (in order of first occurrence
after the chronological sort), and the default selection is the last element
of that sequence, a period of maximal derived timestamp. -/
theorem claim_C10_amended (w : WideTable) (plot : PlotTable)
    (h1 : w.rows ≠ []) (h2 : w.tenorCols ≠ [])
    (h3 : mkPlot w = .ok plot) :
    ∃ ap lastp, appAllPeriods w = .ok ap ∧
      ap = allPeriodsOf (chronological (toTidy plot)) ∧
      ap.Nodup ∧
      (∀ p, p ∈ ap ↔ p ∈ w.rows.map (·.period)) ∧
      ap.Pairwise (fun a b => okLe (dtDerived w a) (dtDerived w b)) ∧
      ap.getLast? = some lastp ∧
      appSelected w = .ok lastp ∧
      (∀ p ∈ w.rows.map (·.period), okLe (dtDerived w p) (dtDerived w lastp)) := by
  have hap : appAllPeriods w = .ok (allPeriodsOf (chronological (toTidy plot))) := by
    unfold appAllPeriods
    rw [h3]
    rfl
  unfold mkPlot at h3
  cases hfix : parseAllWith parseMonYY (w.rows.map (·.period)) with
  | some ts =>
    rw [hfix] at h3
    injection h3 with h33
    subst h33
    have hpf : plotFixed w = plotWith parseMonYY w := rfl
    rw [hpf] at hap ⊢
    obtain ⟨hnd, hmem, hpair, lastp, hlast, hlatest⟩ := slider_spec parseMonYY w h1 h2
    have hdtf : ∀ p, dtDerived w p = parseMonYY p := by
      intro p
      unfold dtDerived
      rw [hfix]
    have hsel : appSelected w = .ok lastp := by
      unfold appSelected
      rw [hap]
      show defaultPeriod (allPeriodsOf (chronological (toTidy (plotWith parseMonYY w))))
          = .ok lastp
      unfold defaultPeriod
      rw [hlast]
    refine ⟨_, lastp, hap, rfl, hnd, hmem, ?_, hlast, hsel, ?_⟩
    · refine hpair.imp ?_
      intro a b hab
      rw [hdtf a, hdtf b]
      exact hab
    · intro p hp
      rw [hdtf p, hdtf lastp]
      exact hlatest p hp
  | none =>
    rw [hfix] at h3
    cases hgen : parseAllWith parseGeneric (w.rows.map (·.period)) with
    | some ts =>
      rw [hgen] at h3
      injection h3 with h33
      subst h33
      have hpg : plotGeneric w = plotWith parseGeneric w := rfl
      rw [hpg] at hap ⊢
      obtain ⟨hnd, hmem, hpair, lastp, hlast, hlatest⟩ := slider_spec parseGeneric w h1 h2
      have hdtg : ∀ p, dtDerived w p = parseGeneric p := by
        intro p
        unfold dtDerived
        rw [hfix]
      have hsel : appSelected w = .ok lastp := by
        unfold appSelected
        rw [hap]
        show defaultPeriod (allPeriodsOf (chronological (toTidy (plotWith parseGeneric w))))
            = .ok lastp
        unfold defaultPeriod
        rw [hlast]
      refine ⟨_, lastp, hap, rfl, hnd, hmem, ?_, hlast, hsel, ?_⟩
      · refine hpair.imp ?_
        intro a b hab
        rw [hdtg a, hdtg b]
        exact hab
      · intro p hp
        rw [hdtg p, hdtg lastp]
        exact hlatest p hp
    | none =>
      rw [hgen] at h3
      simp at h3

/-- Witness for the amended C10: the fixed-format example table and the
generic-fallback example table both satisfy the hypotheses, so each is
offered its distinct labels in timestamp order with the latest period as the
default selection. -/
theorem claim_C10_amended_witness :
    (∃ ap lastp, appAllPeriods wEx1 = .ok ap ∧
      ap = allPeriodsOf (chronological (toTidy (plotFixed wEx1))) ∧
      ap.Nodup ∧
      (∀ p, p ∈ ap ↔ p ∈ wEx1.rows.map (·.period)) ∧
      ap.Pairwise (fun a b => okLe (dtDerived wEx1 a) (dtDerived wEx1 b)) ∧
      ap.getLast? = some lastp ∧
      appSelected wEx1 = .ok lastp ∧
      (∀ p ∈ wEx1.rows.map (·.period),
        okLe (dtDerived wEx1 p) (dtDerived wEx1 lastp))) ∧
    (∃ ap lastp, appAllPeriods wGen = .ok ap ∧
      ap = allPeriodsOf (chronological (toTidy (plotGeneric wGen))) ∧
      ap.Nodup ∧
      (∀ p, p ∈ ap ↔ p ∈ wGen.rows.map (·.period)) ∧
      ap.Pairwise (fun a b => okLe (dtDerived wGen a) (dtDerived wGen b)) ∧
      ap.getLast? = some lastp ∧
      appSelected wGen = .ok lastp ∧
      (∀ p ∈ wGen.rows.map (·.period),
        okLe (dtDerived wGen p) (dtDerived wGen lastp))) :=
  ⟨claim_C10_amended wEx1 (plotFixed wEx1) (by decide) (by decide) rfl,
   claim_C10_amended wGen (plotGeneric wGen) (by decide) (by decide) rfl⟩
